import Mathlib

/-!
Verification of the RAG core of the legal-document-assistant repository.

The repository ships the frontend (frontend/app.js) and a project report
(project_report.md) whose chapters quote the backend's central snippets:
extract_text_from_pdf_bytes, the rag_qa pipeline (embedding, FAISS top-k
search, prompt construction) and safe_generate (retry with exponential
backoff).  The backend app.py itself is not part of the source tree, so the
backend components are modelled from the specification (spec.md), staying
consistent with the report's snippets where those show concrete detail
(k = 3, the join delimiter, the 2 ^ attempt + random.random() delay, the
single caught exception class).  The frontend functions (renderEvalRow,
renderHistory, the evaluation handling in sendBtn.onclick) are embedded
from frontend/app.js directly.

Numbers: distances, scores and delays are modelled as rationals; turn and
chunk payloads as strings / character lists.
-/

namespace LegalAssistant

/-! ## Chunker (§4.1) -/

/-- A character counts as whitespace exactly when Char.isWhitespace says so. -/
def isWS (c : Char) : Bool := c.isWhitespace

/-- Modelled from the spec: the Chunker's sliding window (§4.1) — "slide a
window of targetSize characters ... with overlap characters retained between
consecutive windows".  A text no longer than the window is a single chunk;
the degenerate parameter choice overlap ≥ targetSize is collapsed into the
single-chunk branch so that the recursion is well founded (the spec never
defines it and every theorem below assumes overlap < targetSize). -/
def chunkCore (targetSize overlap : Nat) (l : List Char) : List (List Char) :=
  if _h : l.length ≤ targetSize ∨ targetSize ≤ overlap then
    if l = [] then [] else [l]
  else
    l.take targetSize :: chunkCore targetSize overlap (l.drop (targetSize - overlap))
termination_by l.length
decreasing_by
  simp only [List.length_drop]
  omega

/-- Modelled from the spec: chunk(pages, targetSize, overlap) (§4.1) —
"concatenate page texts", then window; "Empty or whitespace-only source text
yields zero chunks".  The backend chunker is absent from the source tree;
chunks are modelled by their text content. -/
def chunk (pages : List String) (targetSize overlap : Nat) : List (List Char) :=
  let content := (pages.map String.toList).flatten
  if content.all isWS then [] else chunkCore targetSize overlap content

/-- The flattened tail of a chunk list with the first overlap characters of
every chunk removed. -/
def tailFlat (overlap : Nat) (cs : List (List Char)) : List Char :=
  (cs.map (List.drop overlap)).flatten

/-- Concatenation of a chunk list "minus overlaps": the first chunk whole,
every later chunk with its leading overlap region removed. -/
def dropOverlaps (overlap : Nat) : List (List Char) → List Char
  | [] => []
  | c :: cs => c ++ tailFlat overlap cs

/-! ## VectorIndex (§4.2) and RetrievalOrchestrator (§4.3) -/

/-- Chunk record of the data model (§3): stable id, originating page, text,
embedding vector. -/
structure Chunk where
  id : Nat
  sourceUnit : Nat
  text : String
  vector : List ℚ
deriving DecidableEq

/-- A VectorIndex owns the finalized ordered chunk sequence (§3). -/
structure VectorIndex where
  chunks : List Chunk
deriving DecidableEq

/-- Squared Euclidean (L2) distance, the index's metric (§4.2); FAISS
IndexFlatL2 likewise returns squared L2. -/
def sqDist (u v : List ℚ) : ℚ := (List.zipWith (fun a b => (a - b) * (a - b)) u v).sum

/-- Comparison by distance used to rank search results. -/
def distLE (p q : Chunk × ℚ) : Bool := decide (p.2 ≤ q.2)

/-- Modelled from the spec: VectorIndex.search (§4.2) — "search returns up to
k nearest rows; if the index has fewer than k chunks, return all of them
(never error, never pad)"; results ascending by distance.  The FAISS-backed
implementation is absent from the source tree. -/
def search (idx : VectorIndex) (q : List ℚ) (k : Nat) : List (Chunk × ℚ) :=
  ((idx.chunks.map (fun c => (c, sqDist q c.vector))).mergeSort distLE).take k

/-- Python-style separator join, the semantics of "sep".join(xs) used by the
report snippet context = "\n---\n".join(...). -/
def joinSep (sep : String) : List String → String
  | [] => ""
  | [a] => a
  | a :: rest => a ++ sep ++ joinSep sep rest

/-- The explicit delimiter between retrieved chunk texts (report, rag_qa
Step 2). -/
def DELIM : String := "\n---\n"

/-- Modelled from the spec: the RetrievalOrchestrator's context string
(§4.3) — retrieved chunk texts concatenated in ascending-distance order,
separated by the explicit delimiter, exactly as in the report snippet. -/
def retrieveContext (idx : VectorIndex) (q : List ℚ) (k : Nat) : String :=
  joinSep DELIM ((search idx q k).map (fun p => p.1.text))

/-! ## PromptAssembler (§4.4, §7) -/

/-- The marker demanded by §7: "an empty RetrievalResult must cause the
assembled prompt to explicitly state 'no relevant context found'". -/
def NO_CONTEXT : String := "no relevant context found"

/-- Modelled from the spec: the context section of the assembled prompt —
never empty, never omitted; an empty context string is replaced by the
explicit marker (§7). -/
def contextSection (context : String) : String :=
  if context = "" then NO_CONTEXT else context

/-- Modelled from the spec: PromptAssembler.build (§4.4) with the labeled
History / Context / Question sections of the report's prompt snippet
(Step 3: Prompt Engineering). -/
def assemblePrompt (history context question : String) : String :=
  "Use document context and chat history to answer clearly.\nHistory: " ++ history ++
  "\nContext: " ++ contextSection context ++ "\nQuestion: " ++ question

/-! ## GenerationClient (§4.5) -/

/-- Outcome of one attempt against the external generation service: a
completion, a quota / rate-limit signal (ResourceExhausted in the report
snippet), or any other failure. -/
inductive GenOutcome where
  | success (text : String)
  | rateLimited
  | failure (err : String)
deriving DecidableEq

/-- Result of GenerationClient.generate: the completion text, the distinct
exhausted condition, or an immediately propagated hard error (§4.5). -/
inductive GenResult where
  | ok (text : String)
  | serviceExhausted
  | hardError (err : String)
deriving DecidableEq

/-- Delay slept after the i-th consecutive rate-limit failure:
(2 ** attempt) + random.random() in the report snippet; the jitter argument
supplies the sampled random values. -/
def backoffDelay (jitter : Nat → ℚ) (i : Nat) : ℚ := 2 ^ i + jitter i

/-- Modelled from the spec: the retry loop of safe_generate.  The report
snippet shows for attempt in range(5) with only ResourceExhausted caught
(sleeping the backoff delay) and every other exception propagating; the
post-loop exhaustion outcome is taken from §4.5: "Exhausting all retries
surfaces a distinct service-exhausted condition".  The first argument maps
the attempt number to that attempt's outcome; the returned list records the
delays slept, in order. -/
def safe_generate_go (oracle : Nat → GenOutcome) (jitter : Nat → ℚ) :
    Nat → Nat → GenResult × List ℚ
  | _, 0 => (.serviceExhausted, [])
  | i, fuel + 1 =>
    match oracle i with
    | .success t => (.ok t, [])
    | .failure e => (.hardError e, [])
    | .rateLimited =>
        let rest := safe_generate_go oracle jitter (i + 1) fuel
        (rest.1, backoffDelay jitter i :: rest.2)

/-- GenerationClient.generate with the fixed attempt ceiling of 5 (§4.5,
report snippet safe_generate). -/
def safe_generate (oracle : Nat → GenOutcome) (jitter : Nat → ℚ) : GenResult × List ℚ :=
  safe_generate_go oracle jitter 0 5

/-! ## EvaluationJudge (§4.6) -/

/-- Evaluation record of the data model (§3): three 1–5 integer scores plus
free-text reasoning. -/
structure Evaluation where
  helpfulness : Int
  completeness : Int
  relevance : Int
  reasoning : String
deriving DecidableEq

/-- The grader's raw completion, as seen by the strict parser: either a
single structured record carrying the three integers and the reasoning, or
malformed output. -/
inductive GraderResponse where
  | wellFormed (h c r : Int) (reasoning : String)
  | malformed (raw : String)
deriving DecidableEq

/-- What the ask call hands back for the evaluation: each score present or
null, plus the reasoning text (frontend/app.js reads exactly these fields,
checking data.evaluation.helpfulness !== null). -/
structure EvalReport where
  helpfulness : Option Int
  completeness : Option Int
  relevance : Option Int
  reasoning : String
deriving DecidableEq

/-- Modelled from the spec: the strict parsing contract of §4.6 — "a single
structured record" with "three integer scores (1–5)"; anything else fails to
parse. -/
def parseEval : GraderResponse → Option Evaluation
  | .wellFormed h c r s =>
      if 1 ≤ h ∧ h ≤ 5 ∧ 1 ≤ c ∧ c ≤ 5 ∧ 1 ≤ r ∧ r ≤ 5 then some ⟨h, c, r, s⟩ else none
  | .malformed _ => none

/-- The null evaluation of §4.6: scores absent, reasoning empty. -/
def nullEvaluation : EvalReport := ⟨none, none, none, ""⟩

/-- A successfully parsed evaluation, as reported to the caller. -/
def reportOf (e : Evaluation) : EvalReport :=
  ⟨some e.helpfulness, some e.completeness, some e.relevance, e.reasoning⟩

/-- Modelled from the spec: EvaluationJudge.evaluate (§4.6) — parse the raw
completion; on failure make exactly one repair pass (the second argument is
the repair pass's completion); if that also fails to parse, fall back to the
null evaluation.  Returns the report together with the number of repair
attempts made. -/
def evaluate (first repair : GraderResponse) : EvalReport × Nat :=
  match parseEval first with
  | some e => (reportOf e, 0)
  | none =>
      match parseEval repair with
      | some e => (reportOf e, 1)
      | none => (nullEvaluation, 1)

/-- The payload of the ask call: the generated answer together with whatever
the judge produced — the answer is returned whatever the evaluation outcome
(§7, EvaluationUnparseable). -/
structure AskResult where
  answer : String
  evaluation : EvalReport
deriving DecidableEq

/-- Modelled from the spec: the ask call always returns the generated
answer; the evaluation rides alongside. -/
def askReturn (answer : String) (ev : EvalReport) : AskResult := ⟨answer, ev⟩

/-! ## ConversationState (§4.7) -/

/-- ConversationTurn of the data model (§3). -/
structure ConversationTurn where
  question : String
  answer : String
  timestamp : Nat
deriving DecidableEq

/-- Modelled from the spec: ConversationState.append (§4.7) — append-only;
the new turn goes at the end, existing turns untouched. -/
def append (h : List ConversationTurn) (t : ConversationTurn) : List ConversationTurn :=
  h ++ [t]

/-- Modelled from the spec: ConversationState.recentTurns (§4.7) — "the most
recent limit turns in chronological order", i.e. the final segment of the
history. -/
def recentTurns (limit : Nat) (h : List ConversationTurn) : List ConversationTurn :=
  h.drop (h.length - limit)

/-! ## Frontend: renderEvalRow (frontend/app.js) -/

/-- The two numbers renderEvalRow puts into its HTML: the bar-fill
percentage (the data-target attribute) and the raw score shown as
"score/5". -/
structure EvalRow where
  percent : ℚ
  scoreShown : ℚ
deriving DecidableEq

/-- Embeds renderEvalRow of frontend/app.js:
percent = Math.max(0, Math.min(5, score)) * 20 drives the bar fill, while
the unclamped score is displayed. -/
def renderEvalRow (score : ℚ) : EvalRow :=
  { percent := max 0 (min 5 score) * 20, scoreShown := score }

/-! ## Helper lemmas -/

/-- A parsed evaluation always carries three scores inside [1, 5]: the
strict parser rejects anything else. -/
theorem parseEval_some_bounds {g : GraderResponse} {e : Evaluation}
    (hg : parseEval g = some e) :
    1 ≤ e.helpfulness ∧ e.helpfulness ≤ 5 ∧ 1 ≤ e.completeness ∧ e.completeness ≤ 5 ∧
    1 ≤ e.relevance ∧ e.relevance ≤ 5 := by
  cases g with
  | malformed raw => simp [parseEval] at hg
  | wellFormed a b c s =>
      by_cases hcond : 1 ≤ a ∧ a ≤ 5 ∧ 1 ≤ b ∧ b ≤ 5 ∧ 1 ≤ c ∧ c ≤ 5
      · simp only [parseEval, if_pos hcond, Option.some.injEq] at hg
        subst hg
        exact hcond
      · simp [parseEval, if_neg hcond] at hg

/-- The ranking relation on scored chunks is transitive. -/
theorem distLE_trans (a b c : Chunk × ℚ) (hab : distLE a b) (hbc : distLE b c) :
    distLE a c := by
  simp only [distLE, decide_eq_true_eq] at hab hbc ⊢
  exact le_trans hab hbc

/-- The ranking relation on scored chunks is total. -/
theorem distLE_total (a b : Chunk × ℚ) : distLE a b || distLE b a := by
  simp only [distLE, Bool.or_eq_true, decide_eq_true_eq]
  exact le_total a.2 b.2

/-- search returns min k n results: never an error, never padding. -/
theorem search_length (idx : VectorIndex) (q : List ℚ) (k : Nat) :
    (search idx q k).length = min k idx.chunks.length := by
  simp [search]

/-- search results are sorted by non-decreasing distance. -/
theorem search_sorted (idx : VectorIndex) (q : List ℚ) (k : Nat) :
    List.Pairwise (fun a b => a.2 ≤ b.2) (search idx q k) := by
  have hs : ((idx.chunks.map (fun c => (c, sqDist q c.vector))).mergeSort distLE).Pairwise
      (fun a b => distLE a b) :=
    List.sorted_mergeSort distLE_trans distLE_total _
  have ht : (search idx q k).Pairwise (fun a b => distLE a b) :=
    List.Pairwise.sublist (List.take_sublist _ _) hs
  exact ht.imp (fun hab => by simpa [distLE] using hab)

/-- Searching an index with zero chunks returns an empty result. -/
theorem search_nil (idx : VectorIndex) (q : List ℚ) (k : Nat)
    (h : idx.chunks = []) : search idx q k = [] := by
  simp [search, h]

/-- Prepending the delay of attempt i to the delays of attempts i+1, ...,
i+m gives the delays of attempts i, ..., i+m. -/
theorem cons_range_map_backoff (jitter : Nat → ℚ) (i m : Nat) :
    backoffDelay jitter i :: (List.range m).map (fun t => backoffDelay jitter (i + 1 + t)) =
    (List.range (m + 1)).map (fun t => backoffDelay jitter (i + t)) := by
  have hcomp : ((fun t => backoffDelay jitter (i + t)) ∘ Nat.succ) =
      fun t => backoffDelay jitter (i + 1 + t) := by
    funext t
    simp only [Function.comp]
    congr 1
    omega
  rw [List.range_succ_eq_map, List.map_cons, List.map_map, hcomp]
  simp

/-- The delays slept by the retry loop are exactly the backoff delays of the
first m attempts, for some m bounded by the remaining fuel. -/
theorem safe_generate_go_delays (oracle : Nat → GenOutcome) (jitter : Nat → ℚ) :
    ∀ fuel i, ∃ m, m ≤ fuel ∧
      (safe_generate_go oracle jitter i fuel).2 =
        (List.range m).map (fun t => backoffDelay jitter (i + t)) := by
  intro fuel
  induction fuel with
  | zero => exact fun i => ⟨0, Nat.le_refl 0, by simp [safe_generate_go]⟩
  | succ fuel ih =>
      intro i
      cases ho : oracle i with
      | success t => exact ⟨0, Nat.zero_le _, by simp [safe_generate_go, ho]⟩
      | failure e => exact ⟨0, Nat.zero_le _, by simp [safe_generate_go, ho]⟩
      | rateLimited =>
          obtain ⟨m, hm, heq⟩ := ih (i + 1)
          refine ⟨m + 1, Nat.succ_le_succ hm, ?_⟩
          simp only [safe_generate_go, ho]
          rw [heq, cons_range_map_backoff]

/-- Backoff delays grow strictly with the attempt number whenever every
jitter sample lies in [0, 1). -/
theorem backoffDelay_strictMono (jitter : Nat → ℚ)
    (hj : ∀ i, 0 ≤ jitter i ∧ jitter i < 1) {a b : Nat} (hab : a < b) :
    backoffDelay jitter a < backoffDelay jitter b := by
  have h1 : (1 : ℚ) ≤ 2 ^ a := one_le_pow₀ (by norm_num)
  have h2 : (2 : ℚ) ^ (a + 1) ≤ 2 ^ b := pow_le_pow_right₀ (by norm_num) hab
  have h3 : (2 : ℚ) ^ (a + 1) = 2 ^ a * 2 := pow_succ 2 a
  have ja := hj a
  have jb := hj b
  unfold backoffDelay
  linarith [ja.1, ja.2, jb.1, jb.2]

/-- In a run starting at attempt j that fails hard at attempt i + j after
rate limits on every earlier attempt, the loop stops at once with the hard
error, having slept only the j earlier backoff delays. -/
theorem safe_generate_go_failure (oracle : Nat → GenOutcome) (jitter : Nat → ℚ)
    (e : String) :
    ∀ j fuel i, j < fuel → oracle (i + j) = .failure e →
      (∀ m, m < j → oracle (i + m) = .rateLimited) →
      safe_generate_go oracle jitter i fuel =
        (.hardError e, (List.range j).map (fun m => backoffDelay jitter (i + m))) := by
  intro j
  induction j with
  | zero =>
      intro fuel i hj he _
      cases fuel with
      | zero => omega
      | succ fuel =>
          simp only [Nat.add_zero] at he
          simp [safe_generate_go, he]
  | succ j ih =>
      intro fuel i hj he hr
      cases fuel with
      | zero => omega
      | succ fuel =>
          have h0 : oracle i = .rateLimited := by
            have h00 := hr 0 (Nat.succ_pos j)
            simpa using h00
          have hrec := ih fuel (i + 1) (by omega)
            (by rw [show i + 1 + j = i + (j + 1) by omega]; exact he)
            (fun m hm => by
              rw [show i + 1 + m = i + (m + 1) by omega]
              exact hr (m + 1) (by omega))
          simp only [safe_generate_go, h0]
          rw [hrec, cons_range_map_backoff]

/-- Folding tailFlat over a cons. -/
theorem tailFlat_cons (o : Nat) (c : List Char) (cs : List (List Char)) :
    tailFlat o (c :: cs) = c.drop o ++ tailFlat o cs := by
  simp [tailFlat]

/-- Dropping the overlap from every chunk and flattening recovers the text
past the first overlap characters. -/
theorem tailFlat_chunkCore_aux (t o : Nat) (ho : o < t) :
    ∀ n (l : List Char), l.length ≤ n → tailFlat o (chunkCore t o l) = l.drop o := by
  intro n
  induction n with
  | zero =>
      intro l hl
      have hnil : l = [] := List.length_eq_zero.mp (Nat.le_zero.mp hl)
      subst hnil
      rw [chunkCore]
      simp [tailFlat]
  | succ n ih =>
      intro l hl
      rw [chunkCore]
      by_cases hcase : l.length ≤ t ∨ t ≤ o
      · rw [dif_pos hcase]
        by_cases hnil : l = []
        · subst hnil
          simp [tailFlat]
        · rw [if_neg hnil]
          simp [tailFlat_cons, tailFlat]
      · rw [dif_neg hcase]
        push_neg at hcase
        obtain ⟨hlt, _⟩ := hcase
        rw [tailFlat_cons]
        rw [ih (l.drop (t - o)) (by simp only [List.length_drop]; omega)]
        rw [List.drop_take, List.drop_drop]
        have h1 : t - o + o = t := by omega
        rw [h1]
        have h2 : l.drop t = (l.drop o).drop (t - o) := by
          rw [List.drop_drop]
          congr 1
          omega
        rw [h2, List.take_append_drop]

/-- Wrapper of the fuel-indexed lemma at fuel := length. -/
theorem tailFlat_chunkCore (t o : Nat) (ho : o < t) (l : List Char) :
    tailFlat o (chunkCore t o l) = l.drop o :=
  tailFlat_chunkCore_aux t o ho l.length l (Nat.le_refl _)

/-- Reconstruction: the first chunk whole plus every later chunk minus its
overlap region concatenate back to the source text. -/
theorem dropOverlaps_chunkCore (t o : Nat) (ho : o < t) (l : List Char) :
    dropOverlaps o (chunkCore t o l) = l := by
  rw [chunkCore]
  by_cases hcase : l.length ≤ t ∨ t ≤ o
  · rw [dif_pos hcase]
    by_cases hnil : l = []
    · subst hnil
      simp [dropOverlaps]
    · rw [if_neg hnil]
      simp [dropOverlaps, tailFlat]
  · rw [dif_neg hcase]
    rw [show dropOverlaps o (l.take t :: chunkCore t o (l.drop (t - o))) =
        l.take t ++ tailFlat o (chunkCore t o (l.drop (t - o))) from rfl]
    rw [tailFlat_chunkCore t o ho]
    rw [List.drop_drop]
    have h1 : t - o + o = t := by omega
    rw [h1, List.take_append_drop]

/-- The window loop never returns zero chunks on nonempty input. -/
theorem chunkCore_ne_nil (t o : Nat) (l : List Char) (hl : l ≠ []) :
    chunkCore t o l ≠ [] := by
  rw [chunkCore]
  by_cases hcase : l.length ≤ t ∨ t ≤ o
  · rw [dif_pos hcase, if_neg hl]
    simp
  · rw [dif_neg hcase]
    simp

/-- A nonempty text no longer than the window is one single chunk. -/
theorem chunkCore_short (t o : Nat) (l : List Char) (hl : l ≠ []) (hlen : l.length ≤ t) :
    chunkCore t o l = [l] := by
  rw [chunkCore, dif_pos (Or.inl hlen), if_neg hl]

/-- On text that is not all whitespace, chunk is the sliding window over the
concatenated pages. -/
theorem chunk_eq_core (pages : List String) (t o : Nat)
    (hw : ¬ ((pages.map String.toList).flatten.all isWS = true)) :
    chunk pages t o = chunkCore t o ((pages.map String.toList).flatten) := by
  simp only [chunk, if_neg hw]

/-- Text that is not all whitespace is in particular nonempty. -/
theorem content_ne_nil_of_not_ws {content : List Char}
    (hw : ¬ (content.all isWS = true)) : content ≠ [] := by
  intro h
  subst h
  simp at hw

/-! ## Claim theorems -/

/-- C1: search on any built index returns a result list sorted by
non-decreasing distance whose length is min(k, number of chunks); fewer
than k chunks means all of them come back, unpadded; an index with zero
chunks yields the empty result. -/
theorem C1_search_sorted_bounded (idx : VectorIndex) (q : List ℚ) (k : Nat) :
    (search idx q k).length = min k idx.chunks.length ∧
    List.Pairwise (fun a b => a.2 ≤ b.2) (search idx q k) ∧
    (idx.chunks.length < k → (search idx q k).length = idx.chunks.length) ∧
    (idx.chunks = [] → search idx q k = []) := by
  refine ⟨search_length idx q k, search_sorted idx q k, ?_, search_nil idx q k⟩
  intro hk
  rw [search_length idx q k]
  exact Nat.min_eq_right (Nat.le_of_lt hk)

/-- Witness for C1: a one-chunk index searched with k = 3 returns exactly
its chunk, and the empty index returns the empty result. -/
theorem C1_search_sorted_bounded_witness :
    (search ⟨[⟨0, 0, "only chunk", [1, 0]⟩]⟩ [0, 0] 3).length = 1 ∧
    search ⟨[]⟩ [0, 0] 3 = [] := by
  refine ⟨?_, (C1_search_sorted_bounded ⟨[]⟩ [0, 0] 3).2.2.2 rfl⟩
  have h := (C1_search_sorted_bounded ⟨[⟨0, 0, "only chunk", [1, 0]⟩]⟩ [0, 0] 3).2.2.1
    (by simp)
  simpa using h

/-- C2: if the external service signals a rate limit on all 5 attempts,
generate fails with the distinct ServiceExhausted condition — not a silent
or empty result and not a generic failure; if only the first two attempts
are rate limited, the call succeeds on the third attempt (after exactly the
two backoff waits). -/
theorem C2_generate_rate_limit_paths (oracle : Nat → GenOutcome) (jitter : Nat → ℚ) :
    ((∀ i, i < 5 → oracle i = .rateLimited) →
      (safe_generate oracle jitter).1 = .serviceExhausted ∧
      (∀ t, (safe_generate oracle jitter).1 ≠ .ok t) ∧
      (∀ e, (safe_generate oracle jitter).1 ≠ .hardError e)) ∧
    (∀ t0, oracle 0 = .rateLimited → oracle 1 = .rateLimited → oracle 2 = .success t0 →
      safe_generate oracle jitter =
        (.ok t0, [backoffDelay jitter 0, backoffDelay jitter 1])) := by
  constructor
  · intro hall
    have hcomp : (safe_generate oracle jitter).1 = GenResult.serviceExhausted := by
      simp [safe_generate, safe_generate_go, hall 0 (by norm_num), hall 1 (by norm_num),
        hall 2 (by norm_num), hall 3 (by norm_num), hall 4 (by norm_num)]
    exact ⟨hcomp, fun t => by simp [hcomp], fun e => by simp [hcomp]⟩
  · intro t0 h0 h1 h2
    simp [safe_generate, safe_generate_go, h0, h1, h2]

/-- Witness for C2: an always-rate-limited service exhausts, and a service
that recovers on the third attempt succeeds with two recorded waits. -/
theorem C2_generate_rate_limit_paths_witness :
    (safe_generate (fun _ => .rateLimited) (fun _ => 0)).1 = .serviceExhausted ∧
    safe_generate
        (fun i => match i with
          | 0 => .rateLimited
          | 1 => .rateLimited
          | _ => .success "answer")
        (fun _ => 0) =
      (.ok "answer", [1, 2]) := by
  constructor
  · exact ((C2_generate_rate_limit_paths (fun _ => .rateLimited) (fun _ => 0)).1
      (fun i _ => rfl)).1
  · have h := (C2_generate_rate_limit_paths
      (fun i => match i with
        | 0 => .rateLimited
        | 1 => .rateLimited
        | _ => .success "answer")
      (fun _ => 0)).2 "answer" rfl rfl rfl
    rw [h]
    norm_num [backoffDelay]

/-- C6: a non-rate-limit failure on any attempt is not retried: generate
propagates the hard error immediately, having slept only the backoff delays
of the earlier rate-limited attempts. -/
theorem C6_hard_error_no_retry (oracle : Nat → GenOutcome) (jitter : Nat → ℚ)
    (j : Nat) (e : String) (hj : j < 5) (he : oracle j = .failure e)
    (hr : ∀ m, m < j → oracle m = .rateLimited) :
    safe_generate oracle jitter =
      (.hardError e, (List.range j).map (backoffDelay jitter)) ∧
    ((List.range j).map (backoffDelay jitter)).length = j := by
  constructor
  · have h := safe_generate_go_failure oracle jitter e j 5 0 hj (by simpa using he)
      (fun m hm => by simpa using hr m hm)
    rw [safe_generate, h]
    simp
  · simp

/-- Witness for C6: an authentication-style failure on the second attempt
stops the loop at once, after the single backoff wait of the first
attempt. -/
theorem C6_hard_error_no_retry_witness :
    safe_generate
        (fun i => match i with
          | 0 => .rateLimited
          | _ => .failure "auth failed")
        (fun _ => 0) =
      (.hardError "auth failed", [1]) := by
  have h := (C6_hard_error_no_retry
    (fun i => match i with
      | 0 => .rateLimited
      | _ => .failure "auth failed")
    (fun _ => 0) 1 "auth failed" (by norm_num) rfl
    (fun m hm => by
      have hm0 : m = 0 := by omega
      subst hm0
      rfl)).1
  rw [h]
  norm_num [backoffDelay, List.range_succ]

/-- C7: the delay after the i-th consecutive rate-limit failure is
2 ^ i plus the sampled jitter, and for every run and every choice of jitter
values in [0, 1) the recorded backoff delays are strictly increasing. -/
theorem C7_backoff_exponential_increasing (oracle : Nat → GenOutcome) (jitter : Nat → ℚ)
    (hj : ∀ i, 0 ≤ jitter i ∧ jitter i < 1) :
    (∀ i, backoffDelay jitter i = 2 ^ i + jitter i) ∧
    List.Pairwise (fun a b => a < b) (safe_generate oracle jitter).2 := by
  refine ⟨fun i => rfl, ?_⟩
  obtain ⟨m, _, heq⟩ := safe_generate_go_delays oracle jitter 5 0
  rw [safe_generate, heq]
  refine List.Pairwise.map _ ?_ (List.pairwise_lt_range m)
  intro a b hab
  exact backoffDelay_strictMono jitter hj (by omega : 0 + a < 0 + b)

/-- Witness for C7 with jitter constantly one half on an always-rate-limited
run: the five recorded delays strictly increase. -/
theorem C7_backoff_exponential_increasing_witness :
    backoffDelay (fun _ => 1 / 2) 0 = 1 + 1 / 2 ∧
    List.Pairwise (fun a b => a < b)
      (safe_generate (fun _ => .rateLimited) (fun _ => 1 / 2)).2 := by
  have h := C7_backoff_exponential_increasing (fun _ => .rateLimited) (fun _ => 1 / 2)
    (fun i => by norm_num)
  exact ⟨by norm_num [backoffDelay], h.2⟩

/-- C3: when retrieval comes back empty the assembled prompt carries the
explicit "no relevant context found" marker in its context section — the
section is neither omitted nor left as the empty string. -/
theorem C3_empty_context_marker (idx : VectorIndex) (q : List ℚ) (k : Nat)
    (history question : String) (hempty : search idx q k = []) :
    retrieveContext idx q k = "" ∧
    contextSection (retrieveContext idx q k) = NO_CONTEXT ∧
    contextSection (retrieveContext idx q k) ≠ "" ∧
    assemblePrompt history (retrieveContext idx q k) question =
      ("Use document context and chat history to answer clearly.\nHistory: " ++ history ++
        "\nContext: ") ++ NO_CONTEXT ++ ("\nQuestion: " ++ question) := by
  have hctx : retrieveContext idx q k = "" := by
    rw [retrieveContext, hempty]
    rfl
  have hsec : contextSection (retrieveContext idx q k) = NO_CONTEXT := by
    rw [hctx]
    rfl
  refine ⟨hctx, hsec, ?_, ?_⟩
  · rw [hsec]
    decide
  · rw [assemblePrompt, hsec]
    simp [String.append_assoc]

/-- Witness for C3 on the empty index: the prompt built from it shows the
marker. -/
theorem C3_empty_context_marker_witness :
    contextSection (retrieveContext ⟨[]⟩ [0] 3) = NO_CONTEXT ∧
    assemblePrompt "h" (retrieveContext ⟨[]⟩ [0] 3) "q" =
      ("Use document context and chat history to answer clearly.\nHistory: " ++ "h" ++
        "\nContext: ") ++ NO_CONTEXT ++ ("\nQuestion: " ++ "q") := by
  have hs : search ⟨[]⟩ [0] 3 = [] := search_nil ⟨[]⟩ [0] 3 rfl
  exact ⟨(C3_empty_context_marker ⟨[]⟩ [0] 3 "h" "q" hs).2.1,
    (C3_empty_context_marker ⟨[]⟩ [0] 3 "h" "q" hs).2.2.2⟩

/-- C4 counterexample: the claim quantifies over every document with
non-empty text, but §4.1 makes whitespace-only text yield zero chunks, so a
single page holding one space refutes both the "at least one chunk" and the
reconstruction part (and, being shorter than the target size, also the
"exactly one chunk" part). -/
theorem C4_chunk_counterexample :
    ([" "].map String.toList).flatten ≠ [] ∧
    (([" "].map String.toList).flatten).length < 4 ∧
    chunk [" "] 4 1 = [] ∧
    dropOverlaps 1 (chunk [" "] 4 1) ≠ ([" "].map String.toList).flatten := by
  refine ⟨by decide, by decide, by decide, by decide⟩

/-- C4 amended: for every document whose concatenated text is not all
whitespace (with overlap < targetSize), chunk produces at least one chunk
and the concatenation of the chunk texts with the overlap regions removed
reconstructs the content in order; if the text is moreover shorter than
targetSize, exactly one chunk holding the full text is produced. -/
theorem C4_chunk_reconstruction (pages : List String) (targetSize overlap : Nat)
    (ho : overlap < targetSize)
    (hw : ¬ (((pages.map String.toList).flatten).all isWS = true)) :
    chunk pages targetSize overlap ≠ [] ∧
    dropOverlaps overlap (chunk pages targetSize overlap) =
      (pages.map String.toList).flatten ∧
    (((pages.map String.toList).flatten).length < targetSize →
      chunk pages targetSize overlap = [(pages.map String.toList).flatten]) := by
  have hc := chunk_eq_core pages targetSize overlap hw
  have hne := content_ne_nil_of_not_ws hw
  refine ⟨?_, ?_, ?_⟩
  · rw [hc]
    exact chunkCore_ne_nil _ _ _ hne
  · rw [hc]
    exact dropOverlaps_chunkCore _ _ ho _
  · intro hlen
    rw [hc]
    exact chunkCore_short _ _ _ hne (Nat.le_of_lt hlen)

/-- Witness for C4 at a two-page document split into two overlapping
windows: reconstruction recovers the concatenated pages. -/
theorem C4_chunk_reconstruction_witness :
    chunk ["ab", "cd"] 3 1 ≠ [] ∧
    dropOverlaps 1 (chunk ["ab", "cd"] 3 1) = (["ab", "cd"].map String.toList).flatten := by
  have h := C4_chunk_reconstruction ["ab", "cd"] 3 1 (by norm_num) (by decide)
  exact ⟨h.1, h.2.1⟩

/-- C5: the context string is exactly the chunk texts of the retrieval,
taken in ascending order of distance, joined with the explicit delimiter
between consecutive texts. -/
theorem C5_context_ascending_concat (idx : VectorIndex) (q : List ℚ) (k : Nat) :
    retrieveContext idx q k = joinSep DELIM ((search idx q k).map (fun p => p.1.text)) ∧
    List.Pairwise (fun a b => a.2 ≤ b.2) (search idx q k) ∧
    (∀ p p2 rest, search idx q k = p :: p2 :: rest →
      retrieveContext idx q k =
        p.1.text ++ DELIM ++ joinSep DELIM ((p2 :: rest).map (fun r => r.1.text))) := by
  refine ⟨rfl, search_sorted idx q k, ?_⟩
  intro p p2 rest hsr
  rw [retrieveContext, hsr]
  rfl

/-- Witness for C5: a two-chunk index whose nearer chunk comes first; the
context is its text, the delimiter, then the farther text. -/
theorem C5_context_ascending_concat_witness :
    search ⟨[⟨0, 0, "near", [0]⟩, ⟨1, 1, "far", [1]⟩]⟩ [0] 3 =
      [(⟨0, 0, "near", [0]⟩, 0), (⟨1, 1, "far", [1]⟩, 1)] ∧
    retrieveContext ⟨[⟨0, 0, "near", [0]⟩, ⟨1, 1, "far", [1]⟩]⟩ [0] 3 =
      "near" ++ DELIM ++ joinSep DELIM ["far"] := by
  have hsearch : search ⟨[⟨0, 0, "near", [0]⟩, ⟨1, 1, "far", [1]⟩]⟩ [0] 3 =
      [(⟨0, 0, "near", [0]⟩, 0), (⟨1, 1, "far", [1]⟩, 1)] := by
    rw [search]
    have hmap : ([⟨0, 0, "near", [0]⟩, ⟨1, 1, "far", [1]⟩] : List Chunk).map
        (fun c => (c, sqDist [0] c.vector)) =
        [(⟨0, 0, "near", [0]⟩, 0), (⟨1, 1, "far", [1]⟩, 1)] := by
      norm_num [sqDist]
    rw [show (⟨[⟨0, 0, "near", [0]⟩, ⟨1, 1, "far", [1]⟩]⟩ : VectorIndex).chunks =
      [⟨0, 0, "near", [0]⟩, ⟨1, 1, "far", [1]⟩] from rfl, hmap]
    rw [List.mergeSort_of_sorted (by simp [distLE])]
    rfl
  refine ⟨hsearch, ?_⟩
  have h := (C5_context_ascending_concat ⟨[⟨0, 0, "near", [0]⟩, ⟨1, 1, "far", [1]⟩]⟩
    [0] 3).2.2 (⟨0, 0, "near", [0]⟩, 0) (⟨1, 1, "far", [1]⟩, 1) [] hsearch
  simpa using h

/-- C8: EvaluationJudge.evaluate never throws: a well-formed grader response
yields three integer scores in [1,5] plus reasoning with no repair pass; a
malformed response yields, after exactly one repair attempt, the null
evaluation (scores absent, reasoning empty); in every case the ask call
still returns the generated answer. -/
theorem C8_evaluate_never_throws (first repair : GraderResponse) (answer : String) :
    (askReturn answer (evaluate first repair).1).answer = answer ∧
    (evaluate first repair).2 ≤ 1 ∧
    (∀ e, parseEval first = some e →
      evaluate first repair = (reportOf e, 0) ∧
      1 ≤ e.helpfulness ∧ e.helpfulness ≤ 5 ∧ 1 ≤ e.completeness ∧ e.completeness ≤ 5 ∧
      1 ≤ e.relevance ∧ e.relevance ≤ 5) ∧
    (parseEval first = none → parseEval repair = none →
      evaluate first repair = (nullEvaluation, 1)) := by
  refine ⟨rfl, ?_, ?_, ?_⟩
  · rcases hf : parseEval first with _ | e
    · rcases hr : parseEval repair with _ | e2 <;> simp [evaluate, hf, hr]
    · simp [evaluate, hf]
  · intro e he
    refine ⟨by simp [evaluate, he], parseEval_some_bounds he⟩
  · intro h1 h2
    simp [evaluate, h1, h2]

/-- Witness for C8 at concrete grader responses: an in-range well-formed
record parses with no repair, a doubly malformed exchange degrades to the
null evaluation after one repair, and the answer survives either way. -/
theorem C8_evaluate_never_throws_witness :
    evaluate (.wellFormed 5 4 3 "grounded") (.malformed "x") =
      (⟨some 5, some 4, some 3, "grounded"⟩, 0) ∧
    evaluate (.malformed "a") (.malformed "b") = (nullEvaluation, 1) ∧
    (askReturn "the answer" (evaluate (.malformed "a") (.malformed "b")).1).answer
      = "the answer" := by
  refine ⟨?_, ?_, ?_⟩
  · exact ((C8_evaluate_never_throws (.wellFormed 5 4 3 "grounded") (.malformed "x")
      "the answer").2.2.1 ⟨5, 4, 3, "grounded"⟩ (by decide)).1
  · exact (C8_evaluate_never_throws (.malformed "a") (.malformed "b") "x").2.2.2 rfl rfl
  · exact (C8_evaluate_never_throws (.malformed "a") (.malformed "b") "the answer").1

/-- C9: appending a turn and asking for the most recent single turn returns
exactly the appended turn; recentTurns n is the final segment of the history
in chronological order with length n when n turns exist; append never
mutates, removes or reorders the existing turns. -/
theorem C9_conversation_append_recent (h : List ConversationTurn)
    (t : ConversationTurn) (n : Nat) :
    recentTurns 1 (append h t) = [t] ∧
    (append h t).take h.length = h ∧
    h.take (h.length - n) ++ recentTurns n h = h ∧
    (n ≤ h.length → (recentTurns n h).length = n) := by
  refine ⟨?_, List.take_left h [t], List.take_append_drop _ h, ?_⟩
  · have hl : (append h t).length - 1 = h.length := by simp [append]
    rw [recentTurns, hl, append, List.drop_left]
  · intro hn
    simp only [recentTurns, List.length_drop]
    omega

/-- Witness for C9 on a concrete two-turn history. -/
theorem C9_conversation_append_recent_witness :
    recentTurns 1 (append [⟨"q1", "a1", 0⟩] ⟨"q2", "a2", 1⟩) = [⟨"q2", "a2", 1⟩] ∧
    (recentTurns 1 [(⟨"q1", "a1", 0⟩ : ConversationTurn)]).length = 1 := by
  exact ⟨(C9_conversation_append_recent [⟨"q1", "a1", 0⟩] ⟨"q2", "a2", 1⟩ 1).1,
    (C9_conversation_append_recent [⟨"q1", "a1", 0⟩] ⟨"q2", "a2", 1⟩ 1).2.2.2 (by decide)⟩

/-- C10: renderEvalRow clamps the score into [0,5] and scales by 20 for the
bar fill, so the percentage always lies in [0,100], while the raw unclamped
score is what gets displayed. -/
theorem C10_renderEvalRow_clamped_bar (s : ℚ) :
    (renderEvalRow s).percent = max 0 (min 5 s) * 20 ∧
    0 ≤ (renderEvalRow s).percent ∧
    (renderEvalRow s).percent ≤ 100 ∧
    (renderEvalRow s).scoreShown = s := by
  refine ⟨rfl, ?_, ?_, rfl⟩
  · show (0 : ℚ) ≤ max 0 (min 5 s) * 20
    exact mul_nonneg (le_max_left 0 _) (by norm_num)
  · show max 0 (min 5 s) * 20 ≤ (100 : ℚ)
    have h5 : max 0 (min 5 s) ≤ (5 : ℚ) := max_le (by norm_num) (min_le_left 5 s)
    calc max 0 (min 5 s) * 20 ≤ 5 * 20 := mul_le_mul_of_nonneg_right h5 (by norm_num)
      _ = 100 := by norm_num

end LegalAssistant
